import Mathlib

/-!
# gonut: push orchestration and reporting (`internal/gonut/cmd/push.go`)

A shallow embedding of the `push` command of gonut: the registry of sample
apps, the lookup by command name, the orchestration of one push
(`runSampleAppPush`), the aggregate `all` command, and the duration
humanizer (`humanReadableDuration`).

Conventions of the embedding:

* `time.Duration` is an `Int` count of nanoseconds (Go: `int64`).
* `float64` values are the rationals they denote; every `float64` operation
  is the exact operation followed by `float64Round` (IEEE 754 binary64,
  round to nearest, ties to even).
* The collaborators outside this file (asset provider, push engine, random
  source) are oracle functions of the history of effects so far; the history
  (`Trace`) is the state that is passed along.
-/

namespace Gonut

/-! ## Durations and `float64` arithmetic -/

/-- The constant `time.Second`, in nanoseconds. -/
def Second : Int := 1000000000

/-- Round a rational to the nearest integer, ties to the even one. -/
def roundHalfEven (m : ℚ) : ℤ :=
  let f := ⌊m⌋
  let r := m - f
  if r < 1 / 2 then f
  else if 1 / 2 < r then f + 1
  else if f % 2 = 0 then f else f + 1

/-- The `float64` nearest to the rational `q` (ties to even): with
`2 ^ e ≤ |q| < 2 ^ (e + 1)` the spacing of the doubles around `q` is
`2 ^ (e - 52)`, and `q` is rounded to a multiple of it. Exponent limits
(overflow, subnormals) are left out: the values met here lie between
`10⁻⁹` and `2 ^ 34`. -/
def float64Round (q : ℚ) : ℚ :=
  if q = 0 then 0
  else
    let e := Int.log 2 |q|
    let ulp : ℚ := 2 ^ (e - 52)
    roundHalfEven (q / ulp) * ulp

/-- Go's `time.Duration.Seconds`:
`sec := d / Second; nsec := d % Second; return float64(sec) + float64(nsec)/1e9`
(Go's `/` and `%` on integers truncate toward zero). -/
def Duration.Seconds (d : Int) : ℚ :=
  let sec := Int.tdiv d Second
  let nsec := Int.tmod d Second
  float64Round (float64Round sec + float64Round (float64Round nsec / 1000000000))

/-- Go's conversion `int(f)` of a `float64`: the fraction is dropped
(truncation toward zero). -/
def truncToInt (f : ℚ) : Int :=
  if 0 ≤ f then ⌊f⌋ else ⌈f⌉

/-- Go's `strings.Join`. -/
def stringsJoin : List String → String → String
  | [], _ => ""
  | [a], _ => a
  | a :: b :: rest, sep => a ++ sep ++ stringsJoin (b :: rest) sep

/-- The values of `hours`, `minutes` and `seconds` that `humanReadableDuration`
holds after its two nested `if` blocks, from the initial `seconds`. -/
def splitSeconds (seconds0 : Int) : Int × Int × Int :=
  let seconds := seconds0
  let minutes := 0
  let hours := 0
  if seconds ≥ 60 then
    let minutes := seconds / 60
    let seconds := seconds % 60
    if minutes ≥ 60 then
      let hours := minutes / 60
      let minutes := minutes % 60
      (hours, minutes, seconds)
    else (hours, minutes, seconds)
  else (hours, minutes, seconds)

/-- The list `parts` that `humanReadableDuration` builds from the three
components (`fmt.Sprintf("%d h", hours)` and so on). -/
def durationParts (hms : Int × Int × Int) : List String :=
  let parts : List String := []
  let parts := if hms.1 > 0 then parts ++ [toString hms.1 ++ " h"] else parts
  let parts := if hms.2.1 > 0 then parts ++ [toString hms.2.1 ++ " min"] else parts
  let parts := if hms.2.2 > 0 then parts ++ [toString hms.2.2 ++ " sec"] else parts
  parts

/-- The function `humanReadableDuration` of `push.go`. -/
def humanReadableDuration (duration : Int) : String :=
  if duration < Second then "less than a second"
  else
    let seconds := truncToInt (Duration.Seconds duration)
    stringsJoin (durationParts (splitSeconds seconds)) " "

/-- The reference humanizer, written from the specification: under one second
the fixed phrase; otherwise the whole seconds `s` of the duration (the
sub-second remainder dropped), `h = s / 3600`, `m = (s / 60) % 60`,
`sec = s % 60`, and the non-zero ones among `"<h> h"`, `"<m> min"`,
`"<sec> sec"`, in this order, joined by single spaces. -/
def humanizeSpec (d : Int) : String :=
  if d < 1000000000 then "less than a second"
  else
    let s := d / 1000000000
    let h := s / 3600
    let m := (s / 60) % 60
    let sec := s % 60
    " ".intercalate
      ((if h ≠ 0 then [toString h ++ " h"] else [])
        ++ (if m ≠ 0 then [toString m ++ " min"] else [])
        ++ (if sec ≠ 0 then [toString sec ++ " sec"] else []))

/-! ## Data model -/

/-- The methods of `assets.Provider` that the registry refers to; each
descriptor holds one of them in its `assetFunc` field. -/
inductive AssetFunc
  | GoSampleApp
  | PythonSampleApp
  | PHPSampleApp
  | StaticfileSampleApp
  | SwiftSampleApp
  | NodeJSSampleApp
  | RubySampleApp
  deriving DecidableEq, Repr

/-- The struct `sampleApp` of `push.go`. -/
structure sampleApp where
  caption : String
  command : String
  aliases : List String
  appNamePrefix : String
  assetFunc : AssetFunc
  deriving DecidableEq, Repr

/-- The registry `sampleApps` of `push.go`, in source order. -/
def sampleApps : List sampleApp :=
  [ { caption := "Golang", command := "golang", aliases := ["go"],
      appNamePrefix := "gonut-golang-app-", assetFunc := .GoSampleApp },
    { caption := "Python", command := "python", aliases := [],
      appNamePrefix := "gonut-python-app-", assetFunc := .PythonSampleApp },
    { caption := "PHP", command := "php", aliases := [],
      appNamePrefix := "gonut-php-app-", assetFunc := .PHPSampleApp },
    { caption := "Staticfile", command := "staticfile", aliases := ["static"],
      appNamePrefix := "gonut-staticfile-app-", assetFunc := .StaticfileSampleApp },
    { caption := "Swift", command := "swift", aliases := [],
      appNamePrefix := "gonut-swift-app-", assetFunc := .SwiftSampleApp },
    { caption := "NodeJS", command := "nodejs", aliases := ["node"],
      appNamePrefix := "gonut-nodejs-app-", assetFunc := .NodeJSSampleApp },
    { caption := "Ruby", command := "ruby", aliases := [],
      appNamePrefix := "gonut-ruby-sinatra-app-", assetFunc := .RubySampleApp } ]

/-- Modelled from the spec: the `CleanupPolicy` enumeration "`Always`, `Never`,
`OnSuccess`". The type `cf.AppCleanupSetting` and its constants `cf.Always`,
`cf.Never` and `cf.OnSuccess` are declared in the package `cf`, outside
`push.go`. -/
inductive AppCleanupSetting
  | Always
  | Never
  | OnSuccess
  deriving DecidableEq, Repr

/-- A `files.Directory`: the payload that an asset function hands out. Its
content plays no part in `push.go`. -/
structure Directory where
  paths : List String
  deriving DecidableEq, Repr

/-- Modelled from the spec: the `PushOutcome`, "total elapsed time and five
phase durations (initialization, creating, uploading, staging, starting) plus
buildpack/stack identifying strings". The fields are what `push.go` reads from
a `cf.PushReport`: the results of `ElapsedTime()`, `InitTime()`,
`CreatingTime()`, `UploadingTime()`, `StagingTime()`, `StartingTime()` (in
nanoseconds) and the strings `Buildpack.Entity.Name` and
`Buildpack.Entity.Stack`; the type itself is declared in the package `cf`. -/
structure PushReport where
  ElapsedTime : Int
  InitTime : Int
  CreatingTime : Int
  UploadingTime : Int
  StagingTime : Int
  StartingTime : Int
  BuildpackName : String
  BuildpackStack : String
  deriving DecidableEq, Repr

/-- A Go `error` value, identified by its message. -/
structure GoError where
  msg : String
  deriving DecidableEq, Repr

/-- An effect of `runSampleAppPush` on the outside world. -/
inductive Event
  /-- A call `text.RandomStringWithPrefix(pfx, length)` and the name it gave. -/
  | randomString (pfx : String) (length : Nat) (result : String)
  /-- A call of a descriptor's `assetFunc`. -/
  | assetFunc (f : AssetFunc)
  /-- A call `cf.PushApp(caption, appName, directory, cleanupSetting)`. -/
  | PushApp (caption appName : String) (directory : Directory)
      (cleanupSetting : AppCleanupSetting)
  /-- A call `bunt.Printf(format, args...)`. -/
  | Printf (format : String) (args : List String)
  deriving DecidableEq, Repr

/-- The history of effects so far, oldest first. -/
abbrev Trace := List Event

/-- The collaborators of `push.go`. What each returns may depend on the
history of effects so far. -/
structure Collaborators where
  /-- The random numbers that the random string generator draws. -/
  randInt : Trace → Nat → Nat
  /-- The method of `assets.Provider` behind each `AssetFunc`. -/
  assetFunc : AssetFunc → Trace → Except GoError Directory
  /-- The push engine `cf.PushApp`. -/
  PushApp : String → String → Directory → AppCleanupSetting → Trace →
    Except GoError PushReport

/-- The calls of asset functions in a trace. -/
def assetCalls (t : Trace) : List AssetFunc :=
  t.filterMap fun ev =>
    match ev with
    | .assetFunc f => some f
    | _ => none

/-- The calls of the push engine in a trace, with their four arguments. -/
def pushCalls (t : Trace) : List (String × String × Directory × AppCleanupSetting) :=
  t.filterMap fun ev =>
    match ev with
    | .PushApp caption appName directory cleanupSetting =>
      some (caption, appName, directory, cleanupSetting)
    | _ => none

/-- The calls of `bunt.Printf` in a trace: format and arguments. -/
def printed (t : Trace) : List (String × List String) :=
  t.filterMap fun ev =>
    match ev with
    | .Printf format args => some (format, args)
    | _ => none

/-! ## Random application names -/

/-- The characters a random name is drawn from. -/
def alphanumerics : List Char :=
  "abcdefghijklmnopqrstuvwxyzABCDEFGHIJKLMNOPQRSTUVWXYZ0123456789".toList

/-- Modelled from the spec: the random suffix, "a fixed-length random
alphanumeric suffix". The generator belongs to the library package `text`,
outside `push.go`. -/
def RandomString (rand : Nat → Nat) (length : Nat) : String :=
  String.mk ((List.range length).map fun i => alphanumerics.getD (rand i % 62) 'a')

/-- Modelled from the spec: `text.RandomStringWithPrefix`, "concatenating
`appNamePrefix` with a fixed-length random alphanumeric suffix (32
characters)". The function belongs to the library package `text`, outside
`push.go`, which only shows the call with the arguments `app.appNamePrefix`
and `32`. -/
def RandomStringWithPrefix (rand : Nat → Nat) (pfx : String) (length : Nat) : String :=
  pfx ++ RandomString rand length

/-! ## The push command -/

/-- The function `lookUpSampleAppByName` over a registry: the first entry whose
`command` is `name`, or `none` for Go's `nil`. -/
def lookUpIn : List sampleApp → String → Option sampleApp
  | [], _ => none
  | app :: rest, name => if app.command = name then some app else lookUpIn rest name

/-- The function `lookUpSampleAppByName` of `push.go`. -/
def lookUpSampleAppByName (name : String) : Option sampleApp :=
  lookUpIn sampleApps name

/-- The `switch summarySetting` block of `runSampleAppPush`: the `bunt.Printf`
calls it makes, in order. -/
def renderReport (summarySetting : String) (caption : String) (report : PushReport) :
    List Event :=
  if summarySetting = "quiet" then
    []
  else if summarySetting = "short" ∨ summarySetting = "oneline" then
    [.Printf "Successfully pushed *%s* sample app in CadetBlue\x7b%s\x7d.\n"
      [caption, humanReadableDuration report.ElapsedTime]]
  else if summarySetting = "full" then
    [.Printf "Successfully pushed *%s* sample app in CadetBlue\x7b%s\x7d:\n"
      [caption, humanReadableDuration report.ElapsedTime],
     .Printf "  _initialisation_: SteelBlue\x7b%s\x7d\n" [humanReadableDuration report.InitTime],
     .Printf "        _creating_: SteelBlue\x7b%s\x7d\n"
      [humanReadableDuration report.CreatingTime],
     .Printf "       _uploading_: SteelBlue\x7b%s\x7d\n"
      [humanReadableDuration report.UploadingTime],
     .Printf "         _staging_: SteelBlue\x7b%s\x7d\n"
      [humanReadableDuration report.StagingTime],
     .Printf "        _starting_: SteelBlue\x7b%s\x7d\n"
      [humanReadableDuration report.StartingTime],
     .Printf "       _buildpack_: BurlyWood\x7b%s\x7d\n" [report.BuildpackName],
     .Printf "           _stack_: BurlyWood\x7b%s\x7d\n" [report.BuildpackStack],
     .Printf "\n" []]
  else
    []

/-- The `switch deleteSetting` block of `runSampleAppPush`: the cleanup setting
it assigns, or the error that its `default` case returns. -/
def cleanupSettingFor (deleteSetting : String) : Except GoError AppCleanupSetting :=
  if deleteSetting = "always" then .ok .Always
  else if deleteSetting = "never" then .ok .Never
  else if deleteSetting = "on-success" then .ok .OnSuccess
  else .error ⟨"unsupported delete setting: " ++ deleteSetting⟩

/-- The function `runSampleAppPush` of `push.go`. The package variables
`deleteSetting` and `summarySetting` are parameters; the result is the
returned error (`none` for `nil`) and the history extended by the effects of
the call. -/
def runSampleAppPush (deleteSetting summarySetting : String) (env : Collaborators)
    (app : sampleApp) (t : Trace) : Option GoError × Trace :=
  match cleanupSettingFor deleteSetting with
  | .error err => (some err, t)
  | .ok cleanupSetting =>
    let appName := RandomStringWithPrefix (env.randInt t) app.appNamePrefix 32
    let t := t ++ [.randomString app.appNamePrefix 32 appName]
    match env.assetFunc app.assetFunc t with
    | .error err => (some err, t ++ [.assetFunc app.assetFunc])
    | .ok directory =>
      let t := t ++ [.assetFunc app.assetFunc]
      match env.PushApp app.caption appName directory cleanupSetting t with
      | .error err => (some err, t ++ [.PushApp app.caption appName directory cleanupSetting])
      | .ok report =>
        let t := t ++ [.PushApp app.caption appName directory cleanupSetting]
        (none, t ++ renderReport summarySetting app.caption report)

/-- The function `genericCommandFunc` of `push.go`; `use` is `cmd.Use`. -/
def genericCommandFunc (deleteSetting summarySetting : String) (env : Collaborators)
    (use : String) (t : Trace) : Option GoError × Trace :=
  match lookUpSampleAppByName use with
  | none => (some ⟨"failed to detect which sample app is to be tested"⟩, t)
  | some app => runSampleAppPush deleteSetting summarySetting env app t

/-- The loop of the `RunE` of the `all` command, over a registry `apps` and
with `push` in the place of `runSampleAppPush`: the entries in order, and a
return at the first error. -/
def runAll {σ : Type} (push : sampleApp → σ → Option GoError × σ) :
    List sampleApp → σ → Option GoError × σ
  | [], s => (none, s)
  | app :: rest, s =>
    match push app s with
    | (some err, s') => (some err, s')
    | (none, s') => runAll push rest s'

/-- The `RunE` of the `all` command of `push.go`. -/
def allRunE (deleteSetting summarySetting : String) (env : Collaborators) (t : Trace) :
    Option GoError × Trace :=
  runAll (runSampleAppPush deleteSetting summarySetting env) sampleApps t

/-- A push function that also notes, in order, the entries it is called on. -/
def counted {σ : Type} (push : sampleApp → σ → Option GoError × σ)
    (app : sampleApp) (s : σ × List sampleApp) : Option GoError × (σ × List sampleApp) :=
  ((push app s.1).1, ((push app s.1).2, s.2 ++ [app]))

/-- The entries of `apps` are pushed one after the other from state `s`, all
with success, and leave state `s'`. -/
inductive AllSucceed {σ : Type} (push : sampleApp → σ → Option GoError × σ) :
    List sampleApp → σ → σ → Prop
  | nil (s : σ) : AllSucceed push [] s s
  | cons {app : sampleApp} {rest : List sampleApp} {s s₁ s₂ : σ} :
      push app s = (none, s₁) → AllSucceed push rest s₁ s₂ →
      AllSucceed push (app :: rest) s s₂

/-! ## Names for the stages of one push -/

/-- The application name that `runSampleAppPush` generates for `app` when the
history is `t`. -/
def generatedName (env : Collaborators) (app : sampleApp) (t : Trace) : String :=
  RandomStringWithPrefix (env.randInt t) app.appNamePrefix 32

/-- The history once the application name has been generated. -/
def namedTrace (env : Collaborators) (app : sampleApp) (t : Trace) : Trace :=
  t ++ [.randomString app.appNamePrefix 32 (generatedName env app t)]

/-- The history once the asset function has been called. -/
def assetTrace (env : Collaborators) (app : sampleApp) (t : Trace) : Trace :=
  namedTrace env app t ++ [.assetFunc app.assetFunc]

/-- The history once the push engine has been called. -/
def pushedTrace (env : Collaborators) (app : sampleApp) (t : Trace) (directory : Directory)
    (cleanupSetting : AppCleanupSetting) : Trace :=
  assetTrace env app t
    ++ [.PushApp app.caption (generatedName env app t) directory cleanupSetting]

/-! ## Concrete inputs

Descriptors, a report and collaborators on which the statements below are
evaluated. -/

/-- The first entry of the registry. -/
def golangApp : sampleApp :=
  { caption := "Golang", command := "golang", aliases := ["go"],
    appNamePrefix := "gonut-golang-app-", assetFunc := .GoSampleApp }

/-- The second entry of the registry. -/
def pythonApp : sampleApp :=
  { caption := "Python", command := "python", aliases := [],
    appNamePrefix := "gonut-python-app-", assetFunc := .PythonSampleApp }

/-- The third entry of the registry. -/
def phpApp : sampleApp :=
  { caption := "PHP", command := "php", aliases := [],
    appNamePrefix := "gonut-php-app-", assetFunc := .PHPSampleApp }

/-- A report of a push of ninety seconds. -/
def sampleReport : PushReport :=
  { ElapsedTime := 90000000000, InitTime := 500000000, CreatingTime := 2000000000,
    UploadingTime := 7500000000, StagingTime := 65000000000, StartingTime := 15000000000,
    BuildpackName := "go_buildpack", BuildpackStack := "cflinuxfs3" }

/-- Collaborators that always succeed. -/
def steadyEnv : Collaborators :=
  { randInt := fun _ i => 7 * i + 3
    assetFunc := fun _ _ => .ok ⟨["main.go"]⟩
    PushApp := fun _ _ _ _ _ => .ok sampleReport }

/-- Collaborators whose asset functions fail. -/
def noAssetsEnv : Collaborators :=
  { steadyEnv with assetFunc := fun _ _ => .error ⟨"asset unavailable"⟩ }

/-- Collaborators whose push engine fails. -/
def pushFailsEnv : Collaborators :=
  { steadyEnv with PushApp := fun _ _ _ _ _ => .error ⟨"push failed"⟩ }

/-- Collaborators whose push engine fails for the caption `"Python"` only. -/
def pythonFailsEnv : Collaborators :=
  { steadyEnv with
    PushApp := fun caption _ _ _ _ =>
      if caption = "Python" then .error ⟨"staging failed"⟩ else .ok sampleReport }

/-- The number of newline characters in a format string: the lines that one
`Printf` of it ends. -/
def lineCount (format : String) : Nat :=
  format.toList.count '\n'

/-! ## Facts about rounding -/

theorem floor_le_roundHalfEven (m : ℚ) : ⌊m⌋ ≤ roundHalfEven m := by
  unfold roundHalfEven
  simp only
  split_ifs <;> omega

theorem roundHalfEven_le_floor_add_one (m : ℚ) : roundHalfEven m ≤ ⌊m⌋ + 1 := by
  unfold roundHalfEven
  simp only
  split_ifs <;> omega

theorem le_roundHalfEven {m : ℚ} {K : ℤ} (h : (K : ℚ) ≤ m) : K ≤ roundHalfEven m :=
  le_trans (Int.le_floor.mpr h) (floor_le_roundHalfEven m)

theorem roundHalfEven_le {m : ℚ} {K : ℤ} (h : m < K + 1 / 2) : roundHalfEven m ≤ K := by
  have hf : ⌊m⌋ ≤ K := by
    have h1 : (⌊m⌋ : ℚ) ≤ m := Int.floor_le m
    have h2 : (⌊m⌋ : ℚ) < K + 1 := by linarith
    have h3 : ⌊m⌋ < K + 1 := by exact_mod_cast h2
    omega
  rcases lt_or_eq_of_le hf with hlt | heq
  · have := roundHalfEven_le_floor_add_one m
    omega
  · have hr : m - (⌊m⌋ : ℚ) < 1 / 2 := by rw [heq]; linarith
    unfold roundHalfEven
    simp only
    rw [if_pos hr]
    exact hf

theorem roundHalfEven_ge_of_gt {m : ℚ} {K : ℤ} (h : (K : ℚ) - 1 / 2 < m) :
    K ≤ roundHalfEven m := by
  have hf : K - 1 ≤ ⌊m⌋ := by
    apply Int.le_floor.mpr
    push_cast
    linarith
  rcases lt_or_eq_of_le hf with hlt | heq
  · have := floor_le_roundHalfEven m
    omega
  · have hr : 1 / 2 < m - (⌊m⌋ : ℚ) := by rw [← heq]; push_cast; linarith
    unfold roundHalfEven
    simp only
    rw [if_neg (not_lt.mpr hr.le), if_pos hr]
    omega

theorem roundHalfEven_eq_of_near {m : ℚ} {k : ℤ} (h1 : (k : ℚ) - 1 / 2 < m)
    (h2 : m < k + 1 / 2) : roundHalfEven m = k :=
  le_antisymm (roundHalfEven_le h2) (roundHalfEven_ge_of_gt h1)

theorem intLog_two_eq {q : ℚ} {e : ℤ} (hq : 0 < q) (h1 : (2 : ℚ) ^ e ≤ q)
    (h2 : q < (2 : ℚ) ^ (e + 1)) : Int.log 2 q = e := by
  have hb : 1 < (2 : ℕ) := by norm_num
  have ha : e ≤ Int.log 2 q := (Int.zpow_le_iff_le_log hb hq).mp (by exact_mod_cast h1)
  have hc : Int.log 2 q < e + 1 := (Int.lt_zpow_iff_log_lt hb hq).mp (by exact_mod_cast h2)
  omega

theorem float64Round_of_bounds {q : ℚ} {e : ℤ} (hq : 0 < q) (h1 : (2 : ℚ) ^ e ≤ q)
    (h2 : q < (2 : ℚ) ^ (e + 1)) :
    float64Round q = roundHalfEven (q / 2 ^ (e - 52)) * 2 ^ (e - 52) := by
  unfold float64Round
  rw [if_neg hq.ne', abs_of_pos hq, intLog_two_eq hq h1 h2]

theorem exists_binade {q : ℚ} (hq : 0 < q) :
    ∃ e : ℤ, (2 : ℚ) ^ e ≤ q ∧ q < (2 : ℚ) ^ (e + 1) := by
  have hb : 1 < (2 : ℕ) := by norm_num
  refine ⟨Int.log 2 q, ?_, ?_⟩
  · exact_mod_cast Int.zpow_log_le_self hb hq
  · exact_mod_cast Int.lt_zpow_succ_log_self hb q


theorem grid_point_cast {K : ℤ} {j e : ℤ} (hj : e - 52 ≤ j) :
    ((K * 2 ^ (j - (e - 52)).toNat : ℤ) : ℚ) = (K : ℚ) * 2 ^ j / 2 ^ (e - 52) := by
  have h2 : (2 : ℚ) ≠ 0 := by norm_num
  have hn : ((j - (e - 52)).toNat : ℤ) = j - (e - 52) := Int.toNat_of_nonneg (by omega)
  push_cast
  rw [← zpow_natCast, hn, zpow_sub₀ h2, mul_div_assoc]

theorem le_float64Round_of_grid {q : ℚ} {e : ℤ} (hq : 0 < q) (h1 : (2 : ℚ) ^ e ≤ q)
    (h2 : q < (2 : ℚ) ^ (e + 1)) (K j : ℤ) (hj : e - 52 ≤ j) (hy : (K : ℚ) * 2 ^ j ≤ q) :
    (K : ℚ) * 2 ^ j ≤ float64Round q := by
  have hu : (0 : ℚ) < 2 ^ (e - 52) := by positivity
  rw [float64Round_of_bounds hq h1 h2]
  have hK : (K * 2 ^ (j - (e - 52)).toNat : ℤ) ≤ roundHalfEven (q / 2 ^ (e - 52)) := by
    apply le_roundHalfEven
    rw [grid_point_cast hj]
    exact div_le_div_of_nonneg_right hy hu.le
  have hK' : ((K * 2 ^ (j - (e - 52)).toNat : ℤ) : ℚ) ≤ roundHalfEven (q / 2 ^ (e - 52)) := by
    exact_mod_cast hK
  rw [grid_point_cast hj] at hK'
  calc (K : ℚ) * 2 ^ j = (K : ℚ) * 2 ^ j / 2 ^ (e - 52) * 2 ^ (e - 52) := by
        field_simp
    _ ≤ roundHalfEven (q / 2 ^ (e - 52)) * 2 ^ (e - 52) :=
        mul_le_mul_of_nonneg_right hK' hu.le

theorem float64Round_le_of_grid {q : ℚ} {e : ℤ} (hq : 0 < q) (h1 : (2 : ℚ) ^ e ≤ q)
    (h2 : q < (2 : ℚ) ^ (e + 1)) (K j : ℤ) (hj : e - 52 ≤ j)
    (hy : q < (K : ℚ) * 2 ^ j + 2 ^ (e - 53)) :
    float64Round q ≤ (K : ℚ) * 2 ^ j := by
  have hu : (0 : ℚ) < 2 ^ (e - 52) := by positivity
  have hhalf : (2 : ℚ) ^ (e - 53) = 2 ^ (e - 52) * (1 / 2) := by
    rw [show e - 53 = e - 52 - 1 by ring, zpow_sub_one₀ (by norm_num)]
    norm_num
  rw [float64Round_of_bounds hq h1 h2]
  have hK : roundHalfEven (q / 2 ^ (e - 52)) ≤ (K * 2 ^ (j - (e - 52)).toNat : ℤ) := by
    apply roundHalfEven_le
    rw [grid_point_cast hj, div_add' _ _ _ hu.ne']
    apply div_lt_div_of_pos_right _ hu
    rw [hhalf] at hy
    linarith
  have hK' : (roundHalfEven (q / 2 ^ (e - 52)) : ℚ) ≤ ((K * 2 ^ (j - (e - 52)).toNat : ℤ) : ℚ) := by
    exact_mod_cast hK
  rw [grid_point_cast hj] at hK'
  calc (roundHalfEven (q / 2 ^ (e - 52)) : ℚ) * 2 ^ (e - 52)
      ≤ (K : ℚ) * 2 ^ j / 2 ^ (e - 52) * 2 ^ (e - 52) :=
        mul_le_mul_of_nonneg_right hK' hu.le
    _ = (K : ℚ) * 2 ^ j := by field_simp

theorem float64Round_nonneg {q : ℚ} (hq : 0 ≤ q) : 0 ≤ float64Round q := by
  rcases eq_or_lt_of_le hq with h0 | hpos
  · simp [float64Round, ← h0]
  · obtain ⟨e, h1, h2⟩ := exists_binade hpos
    have := le_float64Round_of_grid hpos h1 h2 0 (e - 52) le_rfl (by simpa using hpos.le)
    simpa using this

theorem one_le_float64Round {q : ℚ} (hq : 1 ≤ q) : 1 ≤ float64Round q := by
  have hpos : 0 < q := by linarith
  obtain ⟨e, h1, h2⟩ := exists_binade hpos
  have he : 0 ≤ e := by
    by_contra hneg
    have : (2 : ℚ) ^ (e + 1) ≤ 2 ^ (0 : ℤ) := zpow_le_zpow_right₀ (by norm_num) (by omega)
    simp at this
    linarith
  have hgrid : ((2 ^ 52 : ℤ) : ℚ) * 2 ^ (e - 52) = 2 ^ e := by
    have h52 : ((2 ^ 52 : ℤ) : ℚ) = (2 : ℚ) ^ (52 : ℤ) := by norm_num
    rw [h52, ← zpow_add₀ (by norm_num)]
    congr 1
    ring
  have := le_float64Round_of_grid hpos h1 h2 (2 ^ 52) (e - 52) le_rfl (by rw [hgrid]; exact h1)
  rw [hgrid] at this
  have h0 : (2 : ℚ) ^ (0 : ℤ) ≤ 2 ^ e := zpow_le_zpow_right₀ (by norm_num) he
  simp at h0
  linarith

theorem float64Round_intCast {n : ℤ} (h0 : 0 ≤ n) (h53 : n < 2 ^ 53) :
    float64Round (n : ℚ) = n := by
  rcases eq_or_lt_of_le h0 with hz | hpos
  · simp [float64Round, ← hz]
  · have hq : (0 : ℚ) < n := by exact_mod_cast hpos
    obtain ⟨e, h1, h2⟩ := exists_binade hq
    have he : e - 52 ≤ 0 := by
      by_contra hbig
      have h3 : (2 : ℚ) ^ (53 : ℤ) ≤ 2 ^ e := zpow_le_zpow_right₀ (by norm_num) (by omega)
      have h4 : (n : ℚ) < 2 ^ 53 := by exact_mod_cast h53
      have h5 : (2 : ℚ) ^ (53 : ℤ) = 2 ^ 53 := by norm_num
      linarith
    have hpw : (0 : ℚ) < 2 ^ (e - 53) := by positivity
    have ha := le_float64Round_of_grid hq h1 h2 n 0 he (by simp)
    have hb := float64Round_le_of_grid hq h1 h2 n 0 he (by simp; exact hpw)
    simp at ha hb
    exact le_antisymm hb ha


/-! ## Whole seconds of a duration -/

theorem tdiv_Second (d : Int) (h : 0 ≤ d) : Int.tdiv d Second = d / 1000000000 :=
  Int.tdiv_eq_ediv h (by decide)

theorem tmod_Second (d : Int) (h : 0 ≤ d) : Int.tmod d Second = d % 1000000000 :=
  Int.tmod_eq_emod h (by decide)

/-- From one second on, `int(duration.Seconds())` is at least 1. -/
theorem one_le_truncSeconds (d : Int) (h : Second ≤ d) :
    1 ≤ truncToInt (Duration.Seconds d) := by
  have hd : (1000000000 : Int) ≤ d := h
  have hsec : (1 : ℤ) ≤ Int.tdiv d Second := by rw [tdiv_Second d (by omega)]; omega
  have hnsec : (0 : ℤ) ≤ Int.tmod d Second := by rw [tmod_Second d (by omega)]; omega
  have h1 : (1 : ℚ) ≤ float64Round (Int.tdiv d Second : ℚ) :=
    one_le_float64Round (by exact_mod_cast hsec)
  have h2 : (0 : ℚ) ≤ float64Round (Int.tmod d Second : ℚ) :=
    float64Round_nonneg (by exact_mod_cast hnsec)
  have h3 : (0 : ℚ) ≤ float64Round (float64Round (Int.tmod d Second : ℚ) / 1000000000) :=
    float64Round_nonneg (by positivity)
  have h4 : (1 : ℚ) ≤ Duration.Seconds d := by
    unfold Duration.Seconds
    exact one_le_float64Round (by linarith)
  unfold truncToInt
  rw [if_pos (by linarith)]
  exact Int.le_floor.mpr (by exact_mod_cast h4)

theorem float64Round_le_unit_grid {p : ℚ} (hp0 : 0 ≤ p) (hp1 : p < 1) (K : ℤ)
    (hK : p ≤ (K : ℚ) * 2 ^ (-53 : ℤ)) : float64Round p ≤ (K : ℚ) * 2 ^ (-53 : ℤ) := by
  rcases eq_or_lt_of_le hp0 with hz | hpos
  · rw [← hz] at hK
    simpa [float64Round, ← hz] using hK
  · obtain ⟨e, h1, h2⟩ := exists_binade hpos
    have he : e < 0 := by
      by_contra hge
      have : (2 : ℚ) ^ (0 : ℤ) ≤ 2 ^ e := zpow_le_zpow_right₀ (by norm_num) (by omega)
      simp at this
      linarith
    have hpw : (0 : ℚ) < 2 ^ (e - 53) := by positivity
    exact float64Round_le_of_grid hpos h1 h2 K (-53) (by omega) (by linarith)

/-- The sum `float64(sec) + x` of a whole number of seconds in the binade
`[2 ^ n, 2 ^ (n + 1))` and a fraction `x` that stays more than half a unit in
the last place below 1 has integer part `sec`. -/
theorem floor_float64Round_add {sec : ℤ} {n : ℕ} {x : ℚ} (hn : n ≤ 52)
    (h1 : 2 ^ n ≤ sec) (h2 : sec < 2 ^ (n + 1)) (hx0 : 0 ≤ x)
    (hx : x < 1 - 2 ^ ((n : ℤ) - 53)) : ⌊float64Round ((sec : ℚ) + x)⌋ = sec := by
  have hpw : (0 : ℤ) < 2 ^ n := by positivity
  have hpos : (0 : ℚ) < (sec : ℚ) + x := by
    have : (0 : ℚ) < sec := by exact_mod_cast (lt_of_lt_of_le hpw h1)
    linarith
  have hu : (0 : ℚ) < 2 ^ ((n : ℤ) - 53) := by positivity
  have hu2 : (2 : ℚ) ^ ((n : ℤ) - 52) = 2 * 2 ^ ((n : ℤ) - 53) := by
    rw [show (n : ℤ) - 52 = (n : ℤ) - 53 + 1 by ring, zpow_add_one₀ (by norm_num)]
    ring
  have hb1 : (2 : ℚ) ^ (n : ℤ) ≤ (sec : ℚ) + x := by
    have : ((2 ^ n : ℤ) : ℚ) ≤ sec := by exact_mod_cast h1
    push_cast at this
    rw [zpow_natCast]
    linarith
  have hb2 : (sec : ℚ) + x < (2 : ℚ) ^ ((n : ℤ) + 1) := by
    have h3 : sec + 1 ≤ 2 ^ (n + 1) := by omega
    have : ((sec + 1 : ℤ) : ℚ) ≤ ((2 ^ (n + 1) : ℤ) : ℚ) := by exact_mod_cast h3
    push_cast at this
    rw [show (n : ℤ) + 1 = ((n + 1 : ℕ) : ℤ) by push_cast; ring, zpow_natCast]
    linarith
  have hlow := le_float64Round_of_grid hpos hb1 hb2 sec 0 (by omega) (by simp; exact hx0)
  have hgrid : (((sec + 1) * 2 ^ (52 - n) - 1 : ℤ) : ℚ) * 2 ^ ((n : ℤ) - 52)
      = (sec : ℚ) + 1 - 2 ^ ((n : ℤ) - 52) := by
    have hnat : ((52 - n : ℕ) : ℤ) = 52 - (n : ℤ) := by omega
    have hone : (2 : ℚ) ^ (52 - n) * 2 ^ ((n : ℤ) - 52) = 1 := by
      rw [← zpow_natCast, hnat, ← zpow_add₀ (by norm_num)]
      simp
    push_cast
    rw [sub_mul, mul_assoc, hone]
    ring
  have hup := float64Round_le_of_grid hpos hb1 hb2 ((sec + 1) * 2 ^ (52 - n) - 1)
    ((n : ℤ) - 52) le_rfl (by rw [hgrid, hu2]; linarith)
  rw [hgrid, hu2] at hup
  simp at hlow
  rw [Int.floor_eq_iff]
  constructor
  · exact hlow
  · linarith


theorem float64Round_fraction_le {nsec : ℤ} {B K : ℤ} (h0 : 0 ≤ nsec) (hB : nsec ≤ B)
    (hB1 : B < 1000000000) (hK : (B : ℚ) / 1000000000 ≤ (K : ℚ) * 2 ^ (-53 : ℤ)) :
    0 ≤ float64Round (float64Round (nsec : ℚ) / 1000000000) ∧
      float64Round (float64Round (nsec : ℚ) / 1000000000) ≤ (K : ℚ) * 2 ^ (-53 : ℤ) := by
  have hn : float64Round (nsec : ℚ) = nsec :=
    float64Round_intCast h0 (by norm_num; omega)
  have h0q : (0 : ℚ) ≤ nsec := by exact_mod_cast h0
  have hBq : (nsec : ℚ) ≤ B := by exact_mod_cast hB
  have hB1q : (B : ℚ) < 1000000000 := by exact_mod_cast hB1
  rw [hn]
  have hp0 : (0 : ℚ) ≤ (nsec : ℚ) / 1000000000 := by positivity
  have hp1 : (nsec : ℚ) / 1000000000 < 1 := by
    rw [div_lt_one (by norm_num)]
    linarith
  have hpB : (nsec : ℚ) / 1000000000 ≤ (B : ℚ) / 1000000000 :=
    div_le_div_of_nonneg_right hBq (by norm_num)
  exact ⟨float64Round_nonneg hp0, float64Round_le_unit_grid hp0 hp1 K (le_trans hpB hK)⟩

/-- Below `16777216.999999999 s` the conversion `int(duration.Seconds())` is the
exact number of whole seconds. -/
theorem truncSeconds_eq (d : Int) (h1 : Second ≤ d) (h2 : d < 16777216999999999) :
    truncToInt (Duration.Seconds d) = d / 1000000000 := by
  have hd : (1000000000 : Int) ≤ d := h1
  have hsec1 : 1 ≤ d / 1000000000 := by omega
  have hsec2 : d / 1000000000 ≤ 16777216 := by omega
  have hns0 : 0 ≤ d % 1000000000 := by omega
  have hns1 : d % 1000000000 ≤ 999999999 := by omega
  have hfs : float64Round ((d / 1000000000 : ℤ) : ℚ) = ((d / 1000000000 : ℤ) : ℚ) :=
    float64Round_intCast (by omega) (by norm_num; omega)
  have hfloor : ⌊float64Round (((d / 1000000000 : ℤ) : ℚ)
      + float64Round (float64Round ((d % 1000000000 : ℤ) : ℚ) / 1000000000))⌋
      = d / 1000000000 := by
    rcases lt_or_le (d / 1000000000) 16777216 with hlt | hge
    · obtain ⟨hx0, hx1⟩ := float64Round_fraction_le (K := 2 ^ 53 - 2 ^ 23 - 2 ^ 17)
        hns0 hns1 (by norm_num) (by norm_num)
      have hn1 := Nat.pow_log_le_self 2 (x := (d / 1000000000).toNat) (by omega)
      have hn2 := Nat.lt_pow_succ_log_self (b := 2) (by norm_num) (d / 1000000000).toNat
      have hn : Nat.log 2 (d / 1000000000).toNat ≤ 23 := by
        have : Nat.log 2 (d / 1000000000).toNat < 24 :=
          Nat.log_lt_of_lt_pow (by omega) (by norm_num; omega)
        omega
      have hpw : (2 : ℚ) ^ ((Nat.log 2 (d / 1000000000).toNat : ℤ) - 53) ≤ 2 ^ (-30 : ℤ) :=
        zpow_le_zpow_right₀ (by norm_num) (by omega)
      refine floor_float64Round_add (n := Nat.log 2 (d / 1000000000).toNat) (by omega)
        ?_ ?_ hx0 ?_
      · have : ((2 ^ Nat.log 2 (d / 1000000000).toNat : ℕ) : ℤ) ≤ ((d / 1000000000).toNat : ℤ) := by
          exact_mod_cast hn1
        rw [Int.toNat_of_nonneg (by omega)] at this
        exact_mod_cast this
      · have : (((d / 1000000000).toNat : ℕ) : ℤ)
            < ((2 ^ (Nat.log 2 (d / 1000000000).toNat).succ : ℕ) : ℤ) := by
          exact_mod_cast hn2
        rw [Int.toNat_of_nonneg (by omega)] at this
        exact_mod_cast this
      · have hK : (((2 ^ 53 - 2 ^ 23 - 2 ^ 17 : ℤ)) : ℚ) * 2 ^ (-53 : ℤ) < 1 - 2 ^ (-30 : ℤ) := by
          norm_num
        linarith
    · have hsec : d / 1000000000 = 16777216 := le_antisymm hsec2 hge
      have hns2 : d % 1000000000 ≤ 999999998 := by omega
      obtain ⟨hx0, hx1⟩ := float64Round_fraction_le (K := 2 ^ 53 - 2 ^ 24 - 2 ^ 17)
        hns0 hns2 (by norm_num) (by norm_num)
      refine floor_float64Round_add (n := 24) (by norm_num) (by omega) (by omega) hx0 ?_
      have hK : (((2 ^ 53 - 2 ^ 24 - 2 ^ 17 : ℤ)) : ℚ) * 2 ^ (-53 : ℤ)
          < 1 - 2 ^ (((24 : ℕ) : ℤ) - 53) := by
        norm_num
      linarith
  have hnn : (0 : ℚ) ≤ Duration.Seconds d := by
    unfold Duration.Seconds
    apply float64Round_nonneg
    have ha : (0 : ℚ) ≤ float64Round ((Int.tdiv d Second : ℤ) : ℚ) :=
      float64Round_nonneg (by rw [tdiv_Second d (by omega)]; exact_mod_cast (by omega : (0:ℤ) ≤ d / 1000000000))
    have hb : (0 : ℚ) ≤ float64Round (float64Round ((Int.tmod d Second : ℤ) : ℚ) / 1000000000) :=
      float64Round_nonneg (div_nonneg (float64Round_nonneg
        (by rw [tmod_Second d (by omega)]; exact_mod_cast hns0)) (by norm_num))
    linarith
  unfold truncToInt
  rw [if_pos hnn]
  unfold Duration.Seconds
  simp only
  rw [tdiv_Second d (by omega), tmod_Second d (by omega), hfs]
  exact hfloor


theorem float64Round_eval {q : ℚ} (e k : ℤ) (hq : 0 < q) (h1 : (2 : ℚ) ^ e ≤ q)
    (h2 : q < (2 : ℚ) ^ (e + 1)) (hk1 : (k : ℚ) - 1 / 2 < q / 2 ^ (e - 52))
    (hk2 : q / 2 ^ (e - 52) < (k : ℚ) + 1 / 2) :
    float64Round q = (k : ℚ) * 2 ^ (e - 52) := by
  rw [float64Round_of_bounds hq h1 h2, roundHalfEven_eq_of_near hk1 hk2]

/-- At `16777216.999999999 s` the sum inside `Duration.Seconds` is rounded up to
the next whole second. -/
theorem truncSeconds_rounds_up : truncToInt (Duration.Seconds 16777216999999999) = 16777217 := by
  have hs : float64Round ((16777216 : ℤ) : ℚ) = ((16777216 : ℤ) : ℚ) :=
    float64Round_intCast (by norm_num) (by norm_num)
  have hn : float64Round ((999999999 : ℤ) : ℚ) = ((999999999 : ℤ) : ℚ) :=
    float64Round_intCast (by norm_num) (by norm_num)
  have hx : float64Round ((999999999 : ℚ) / 1000000000)
      = ((9007199245733793 : ℤ) : ℚ) * 2 ^ ((-1 : ℤ) - 52) :=
    float64Round_eval (-1) 9007199245733793 (by norm_num) (by norm_num) (by norm_num)
      (by norm_num) (by norm_num)
  have hsum : float64Round ((16777216 : ℚ)
      + ((9007199245733793 : ℤ) : ℚ) * 2 ^ ((-1 : ℤ) - 52))
      = ((4503599895805952 : ℤ) : ℚ) * 2 ^ ((24 : ℤ) - 52) :=
    float64Round_eval 24 4503599895805952 (by norm_num) (by norm_num) (by norm_num)
      (by norm_num) (by norm_num)
  have hval : Duration.Seconds 16777216999999999 = 16777217 := by
    unfold Duration.Seconds
    simp only
    rw [tdiv_Second _ (by norm_num), tmod_Second _ (by norm_num)]
    norm_num at hs hn ⊢
    rw [hs, hn, hx, hsum]
    norm_num
  rw [hval]
  simp [truncToInt]


/-! ## Rendering of whole seconds -/

theorem splitSeconds_eq (s : Int) (h : 0 ≤ s) :
    splitSeconds s = (s / 3600, (s / 60) % 60, s % 60) := by
  unfold splitSeconds
  simp only
  split_ifs with h1 h2 <;> refine Prod.ext ?_ (Prod.ext ?_ ?_) <;> dsimp only <;> omega

theorem stringsJoin_durationParts (h m s : Int) (hh : 0 ≤ h) (hm : 0 ≤ m) (hs : 0 ≤ s) :
    stringsJoin (durationParts (h, m, s)) " "
      = " ".intercalate
        ((if h ≠ 0 then [toString h ++ " h"] else [])
          ++ (if m ≠ 0 then [toString m ++ " min"] else [])
          ++ (if s ≠ 0 then [toString s ++ " sec"] else [])) := by
  have e1 : (h > 0) ↔ h ≠ 0 := by omega
  have e2 : (m > 0) ↔ m ≠ 0 := by omega
  have e3 : (s > 0) ↔ s ≠ 0 := by omega
  simp only [durationParts, e1, e2, e3]
  by_cases c1 : h = 0 <;> by_cases c2 : m = 0 <;> by_cases c3 : s = 0 <;>
    simp [c1, c2, c3, stringsJoin, String.intercalate, String.intercalate.go,
      String.append_assoc]

theorem stringsJoin_durationParts_ne_empty (hms : Int × Int × Int)
    (h : hms.1 > 0 ∨ hms.2.1 > 0 ∨ hms.2.2 > 0) :
    stringsJoin (durationParts hms) " " ≠ "" := by
  have e1 : " h".length = 2 := rfl
  have e2 : " min".length = 4 := rfl
  have e3 : " sec".length = 4 := rfl
  have e4 : " ".length = 1 := rfl
  have hlen : 0 < (stringsJoin (durationParts hms) " ").length := by
    by_cases c1 : hms.1 > 0 <;> by_cases c2 : hms.2.1 > 0 <;> by_cases c3 : hms.2.2 > 0 <;>
      simp only [durationParts, c1, c2, c3, stringsJoin, String.length_append, if_true,
        if_false, List.nil_append, List.cons_append, e1, e2, e3, e4] <;>
      omega
  intro hemp
  rw [hemp] at hlen
  exact absurd hlen (by decide)

theorem splitSeconds_components (s : Int) (hs : 1 ≤ s) :
    ((splitSeconds s).1 > 0 ∨ (splitSeconds s).2.1 > 0 ∨ (splitSeconds s).2.2 > 0)
      ∧ 0 ≤ (splitSeconds s).1
      ∧ 0 ≤ (splitSeconds s).2.1 ∧ (splitSeconds s).2.1 < 60
      ∧ 0 ≤ (splitSeconds s).2.2 ∧ (splitSeconds s).2.2 < 60 := by
  rw [splitSeconds_eq s (by omega)]
  simp only
  omega

theorem durationParts_ne_nil (hms : Int × Int × Int)
    (h : hms.1 > 0 ∨ hms.2.1 > 0 ∨ hms.2.2 > 0) : durationParts hms ≠ [] := by
  unfold durationParts
  simp only
  rcases h with h | h | h <;> split_ifs <;> simp


/-! ## One push, stage by stage -/

theorem runSampleAppPush_of_invalid {deleteSetting : String} (summarySetting : String)
    (env : Collaborators) (app : sampleApp) (t : Trace) {err : GoError}
    (hd : cleanupSettingFor deleteSetting = .error err) :
    runSampleAppPush deleteSetting summarySetting env app t = (some err, t) := by
  simp [runSampleAppPush, hd]

theorem runSampleAppPush_of_asset_error {deleteSetting : String} (summarySetting : String)
    {env : Collaborators} {app : sampleApp} {t : Trace} {cleanupSetting : AppCleanupSetting}
    {err : GoError} (hd : cleanupSettingFor deleteSetting = .ok cleanupSetting)
    (ha : env.assetFunc app.assetFunc (namedTrace env app t) = .error err) :
    runSampleAppPush deleteSetting summarySetting env app t = (some err, assetTrace env app t) := by
  simp only [namedTrace, generatedName] at ha
  simp only [runSampleAppPush, hd, ha, assetTrace, namedTrace, generatedName]

theorem runSampleAppPush_of_push_error {deleteSetting : String} (summarySetting : String)
    {env : Collaborators} {app : sampleApp} {t : Trace} {cleanupSetting : AppCleanupSetting}
    {directory : Directory} {err : GoError}
    (hd : cleanupSettingFor deleteSetting = .ok cleanupSetting)
    (ha : env.assetFunc app.assetFunc (namedTrace env app t) = .ok directory)
    (hp : env.PushApp app.caption (generatedName env app t) directory cleanupSetting
      (assetTrace env app t) = .error err) :
    runSampleAppPush deleteSetting summarySetting env app t
      = (some err, pushedTrace env app t directory cleanupSetting) := by
  simp only [assetTrace, namedTrace, generatedName] at ha hp
  simp only [runSampleAppPush, hd, ha, hp, pushedTrace, assetTrace, namedTrace, generatedName]

theorem runSampleAppPush_of_success {deleteSetting : String} (summarySetting : String)
    {env : Collaborators} {app : sampleApp} {t : Trace} {cleanupSetting : AppCleanupSetting}
    {directory : Directory} {report : PushReport}
    (hd : cleanupSettingFor deleteSetting = .ok cleanupSetting)
    (ha : env.assetFunc app.assetFunc (namedTrace env app t) = .ok directory)
    (hp : env.PushApp app.caption (generatedName env app t) directory cleanupSetting
      (assetTrace env app t) = .ok report) :
    runSampleAppPush deleteSetting summarySetting env app t
      = (none, pushedTrace env app t directory cleanupSetting
          ++ renderReport summarySetting app.caption report) := by
  simp only [assetTrace, namedTrace, generatedName] at ha hp
  simp only [runSampleAppPush, hd, ha, hp, pushedTrace, assetTrace, namedTrace, generatedName]

theorem cleanupSettingFor_of_unsupported {deleteSetting : String}
    (h1 : deleteSetting ≠ "always") (h2 : deleteSetting ≠ "never")
    (h3 : deleteSetting ≠ "on-success") :
    cleanupSettingFor deleteSetting
      = .error ⟨"unsupported delete setting: " ++ deleteSetting⟩ := by
  simp [cleanupSettingFor, h1, h2, h3]

theorem printed_append (t u : Trace) : printed (t ++ u) = printed t ++ printed u := by
  simp [printed, List.filterMap_append]

theorem pushCalls_append (t u : Trace) : pushCalls (t ++ u) = pushCalls t ++ pushCalls u := by
  simp [pushCalls, List.filterMap_append]

theorem assetCalls_append (t u : Trace) :
    assetCalls (t ++ u) = assetCalls t ++ assetCalls u := by
  simp [assetCalls, List.filterMap_append]

theorem pushCalls_renderReport (summarySetting caption : String) (report : PushReport) :
    pushCalls (renderReport summarySetting caption report) = [] := by
  unfold renderReport
  split_ifs <;> simp [pushCalls]

theorem assetCalls_renderReport (summarySetting caption : String) (report : PushReport) :
    assetCalls (renderReport summarySetting caption report) = [] := by
  unfold renderReport
  split_ifs <;> simp [assetCalls]

theorem printed_assetTrace (env : Collaborators) (app : sampleApp) (t : Trace) :
    printed (assetTrace env app t) = printed t := by
  simp [assetTrace, namedTrace, printed, List.filterMap_append]

theorem printed_pushedTrace (env : Collaborators) (app : sampleApp) (t : Trace)
    (directory : Directory) (cleanupSetting : AppCleanupSetting) :
    printed (pushedTrace env app t directory cleanupSetting) = printed t := by
  simp [pushedTrace, assetTrace, namedTrace, printed, List.filterMap_append]

theorem pushCalls_assetTrace (env : Collaborators) (app : sampleApp) (t : Trace) :
    pushCalls (assetTrace env app t) = pushCalls t := by
  simp [assetTrace, namedTrace, pushCalls, List.filterMap_append]

theorem pushCalls_pushedTrace (env : Collaborators) (app : sampleApp) (t : Trace)
    (directory : Directory) (cleanupSetting : AppCleanupSetting) :
    pushCalls (pushedTrace env app t directory cleanupSetting)
      = pushCalls t ++ [(app.caption, generatedName env app t, directory, cleanupSetting)] := by
  simp [pushedTrace, assetTrace, namedTrace, pushCalls, List.filterMap_append]

theorem assetCalls_assetTrace (env : Collaborators) (app : sampleApp) (t : Trace) :
    assetCalls (assetTrace env app t) = assetCalls t ++ [app.assetFunc] := by
  simp [assetTrace, namedTrace, assetCalls, List.filterMap_append]

theorem assetCalls_pushedTrace (env : Collaborators) (app : sampleApp) (t : Trace)
    (directory : Directory) (cleanupSetting : AppCleanupSetting) :
    assetCalls (pushedTrace env app t directory cleanupSetting)
      = assetCalls t ++ [app.assetFunc] := by
  simp [pushedTrace, assetTrace, namedTrace, assetCalls, List.filterMap_append]


theorem printed_renderReport_quiet (caption : String) (report : PushReport) :
    printed (renderReport "quiet" caption report) = [] := by
  simp [renderReport, printed]

theorem printed_renderReport_short (caption : String) (report : PushReport) :
    printed (renderReport "short" caption report)
      = [("Successfully pushed *%s* sample app in CadetBlue\x7b%s\x7d.\n",
          [caption, humanReadableDuration report.ElapsedTime])] := by
  have h : ¬ ("short" = "quiet") := by decide
  simp [renderReport, printed, h]

theorem printed_renderReport_oneline (caption : String) (report : PushReport) :
    printed (renderReport "oneline" caption report)
      = [("Successfully pushed *%s* sample app in CadetBlue\x7b%s\x7d.\n",
          [caption, humanReadableDuration report.ElapsedTime])] := by
  have h : ¬ ("oneline" = "quiet") := by decide
  simp [renderReport, printed, h]

theorem printed_renderReport_full (caption : String) (report : PushReport) :
    printed (renderReport "full" caption report)
      = [("Successfully pushed *%s* sample app in CadetBlue\x7b%s\x7d:\n",
          [caption, humanReadableDuration report.ElapsedTime]),
         ("  _initialisation_: SteelBlue\x7b%s\x7d\n", [humanReadableDuration report.InitTime]),
         ("        _creating_: SteelBlue\x7b%s\x7d\n",
          [humanReadableDuration report.CreatingTime]),
         ("       _uploading_: SteelBlue\x7b%s\x7d\n",
          [humanReadableDuration report.UploadingTime]),
         ("         _staging_: SteelBlue\x7b%s\x7d\n",
          [humanReadableDuration report.StagingTime]),
         ("        _starting_: SteelBlue\x7b%s\x7d\n",
          [humanReadableDuration report.StartingTime]),
         ("       _buildpack_: BurlyWood\x7b%s\x7d\n", [report.BuildpackName]),
         ("           _stack_: BurlyWood\x7b%s\x7d\n", [report.BuildpackStack]),
         ("\n", [])] := by
  have h1 : ¬ ("full" = "quiet") := by decide
  have h2 : ¬ ("full" = "short") := by decide
  have h3 : ¬ ("full" = "oneline") := by decide
  simp [renderReport, printed, h1, h2, h3]


theorem RandomString_length (rand : Nat → Nat) (length : Nat) :
    (RandomString rand length).length = length := by
  simp [RandomString, String.length]

theorem namedTrace_subset_run (deleteSetting summarySetting : String) (env : Collaborators)
    (app : sampleApp) (t : Trace) {cleanupSetting : AppCleanupSetting}
    (hd : cleanupSettingFor deleteSetting = .ok cleanupSetting) :
    Event.randomString app.appNamePrefix 32 (generatedName env app t)
      ∈ (runSampleAppPush deleteSetting summarySetting env app t).2 := by
  cases ha : env.assetFunc app.assetFunc (namedTrace env app t) with
  | error err =>
    rw [runSampleAppPush_of_asset_error summarySetting hd ha]
    simp [assetTrace, namedTrace]
  | ok directory =>
    cases hp : env.PushApp app.caption (generatedName env app t) directory cleanupSetting
        (assetTrace env app t) with
    | error err =>
      rw [runSampleAppPush_of_push_error summarySetting hd ha hp]
      simp [pushedTrace, assetTrace, namedTrace]
    | ok report =>
      rw [runSampleAppPush_of_success summarySetting hd ha hp]
      simp [pushedTrace, assetTrace, namedTrace]


theorem lookUpIn_eq_none (apps : List sampleApp) (name : String)
    (h : ∀ d ∈ apps, d.command ≠ name) : lookUpIn apps name = none := by
  induction apps with
  | nil => rfl
  | cons a rest ih =>
    have ha : a.command ≠ name := h a (List.mem_cons_self a rest)
    simp only [lookUpIn, if_neg ha]
    exact ih fun d hd => h d (List.mem_cons_of_mem a hd)


/-! ## The loop of the `all` command -/

theorem runAll_append_of_allSucceed {σ : Type} (push : sampleApp → σ → Option GoError × σ)
    {pre : List sampleApp} {s s' : σ} (h : AllSucceed push pre s s') (rest : List sampleApp) :
    runAll push (pre ++ rest) s = runAll push rest s' := by
  induction h with
  | nil s => rfl
  | cons hpush _ ih =>
    simp only [List.cons_append, runAll, hpush]
    exact ih

theorem runAll_counted_append_of_allSucceed {σ : Type}
    (push : sampleApp → σ → Option GoError × σ) {pre : List sampleApp} {s s' : σ}
    (h : AllSucceed push pre s s') (rest log : List sampleApp) :
    runAll (counted push) (pre ++ rest) (s, log)
      = runAll (counted push) rest (s', log ++ pre) := by
  induction h generalizing log with
  | nil s => simp
  | @cons a r s₀ s₁ s₂ hpush _ ih =>
    simp only [List.cons_append, runAll, counted, hpush]
    have := ih (log ++ [a])
    simpa using this

theorem runAll_outcome {σ : Type} (push : sampleApp → σ → Option GoError × σ)
    (apps : List sampleApp) (s : σ) :
    (∃ s', AllSucceed push apps s s')
      ∨ (∃ pre k post s' s'' err, apps = pre ++ k :: post ∧ AllSucceed push pre s s'
          ∧ push k s' = (some err, s'')) := by
  induction apps generalizing s with
  | nil => exact Or.inl ⟨s, AllSucceed.nil s⟩
  | cons a rest ih =>
    rcases hpush : push a s with ⟨r, s₁⟩
    cases r with
    | some err =>
      exact Or.inr ⟨[], a, rest, s, s₁, err, rfl, AllSucceed.nil s, hpush⟩
    | none =>
      rcases ih s₁ with ⟨s', hs'⟩ | ⟨pre, k, post, s', s'', err, happs, hpre, hk⟩
      · exact Or.inl ⟨s', AllSucceed.cons hpush hs'⟩
      · exact Or.inr ⟨a :: pre, k, post, s', s'', err, by rw [happs]; rfl,
          AllSucceed.cons hpush hpre, hk⟩

/-! ## The claims -/

/-- Claim C1. With a delete setting that is none of `"always"`, `"never"` and
`"on-success"`, `runSampleAppPush` returns the error "unsupported delete
setting: ..." for every descriptor and leaves the history as it found it: no
name is generated, no asset function and no push engine is called, and nothing
is printed. Run from the empty history, it leaves the empty history. -/
theorem invalid_delete_setting_rejected (deleteSetting summarySetting : String)
    (env : Collaborators) (app : sampleApp) (t : Trace)
    (h1 : deleteSetting ≠ "always") (h2 : deleteSetting ≠ "never")
    (h3 : deleteSetting ≠ "on-success") :
    runSampleAppPush deleteSetting summarySetting env app t
        = (some ⟨"unsupported delete setting: " ++ deleteSetting⟩, t)
      ∧ assetCalls (runSampleAppPush deleteSetting summarySetting env app t).2 = assetCalls t
      ∧ pushCalls (runSampleAppPush deleteSetting summarySetting env app t).2 = pushCalls t
      ∧ printed (runSampleAppPush deleteSetting summarySetting env app t).2 = printed t
      ∧ (runSampleAppPush deleteSetting summarySetting env app []).2 = [] := by
  have h := fun u => runSampleAppPush_of_invalid summarySetting env app u
    (cleanupSettingFor_of_unsupported h1 h2 h3)
  simp [h]

/-- Claim C1 at the delete setting `"sometimes"`. -/
theorem invalid_delete_setting_rejected_witness :
    ("sometimes" ≠ "always" ∧ "sometimes" ≠ "never" ∧ "sometimes" ≠ "on-success")
      ∧ runSampleAppPush "sometimes" "short" steadyEnv golangApp []
        = (some ⟨"unsupported delete setting: sometimes"⟩, []) :=
  ⟨by decide, (invalid_delete_setting_rejected "sometimes" "short" steadyEnv golangApp []
    (by decide) (by decide) (by decide)).1⟩

/-- Claim C2 fails at the summary setting `"oneline"`, which is none of
`"quiet"`, `"short"` and `"full"`: `runSampleAppPush` returns no error, has
called the push engine, and has printed the one-line report. -/
theorem oneline_summary_not_rejected :
    ("oneline" ≠ "quiet" ∧ "oneline" ≠ "short" ∧ "oneline" ≠ "full")
      ∧ (runSampleAppPush "always" "oneline" steadyEnv golangApp []).1 = none
      ∧ pushCalls (runSampleAppPush "always" "oneline" steadyEnv golangApp []).2
        = [("Golang", generatedName steadyEnv golangApp [], ⟨["main.go"]⟩, .Always)]
      ∧ printed (runSampleAppPush "always" "oneline" steadyEnv golangApp []).2
        = [("Successfully pushed *%s* sample app in CadetBlue\x7b%s\x7d.\n",
            ["Golang", humanReadableDuration 90000000000])] := by
  have hrun := @runSampleAppPush_of_success "always" "oneline" steadyEnv golangApp []
    .Always ⟨["main.go"]⟩ sampleReport rfl rfl rfl
  refine ⟨by decide, ?_, ?_, ?_⟩
  · rw [hrun]
  · rw [hrun, pushCalls_append, pushCalls_pushedTrace, pushCalls_renderReport]
    rfl
  · rw [hrun, printed_append, printed_pushedTrace, printed_renderReport_oneline]
    rfl

/-- Claim C2, amended. For each of the summary settings `"quiet"`, `"short"`,
`"oneline"` and `"full"` the verbosity is resolved: once the delete setting is
valid and the asset function and the push engine have succeeded,
`runSampleAppPush` returns no error, has called the push engine once, and has
printed the report of that setting: nothing for `"quiet"`, nine `Printf` calls
for `"full"`, one for `"short"` and for `"oneline"`, which prints what
`"short"` prints. -/
theorem summary_settings_accepted (deleteSetting summarySetting : String)
    (env : Collaborators) (app : sampleApp) (t : Trace) (cleanupSetting : AppCleanupSetting)
    (directory : Directory) (report : PushReport)
    (hs : summarySetting = "quiet" ∨ summarySetting = "short" ∨ summarySetting = "oneline"
      ∨ summarySetting = "full")
    (hd : cleanupSettingFor deleteSetting = .ok cleanupSetting)
    (ha : env.assetFunc app.assetFunc (namedTrace env app t) = .ok directory)
    (hp : env.PushApp app.caption (generatedName env app t) directory cleanupSetting
      (assetTrace env app t) = .ok report) :
    (runSampleAppPush deleteSetting summarySetting env app t).1 = none
      ∧ pushCalls (runSampleAppPush deleteSetting summarySetting env app t).2
        = pushCalls t ++ [(app.caption, generatedName env app t, directory, cleanupSetting)]
      ∧ printed (runSampleAppPush deleteSetting summarySetting env app t).2
        = printed t ++ printed (renderReport summarySetting app.caption report)
      ∧ (printed (renderReport summarySetting app.caption report)).length
        = (if summarySetting = "quiet" then 0 else if summarySetting = "full" then 9 else 1)
      ∧ renderReport "oneline" app.caption report = renderReport "short" app.caption report := by
  have hrun := runSampleAppPush_of_success summarySetting hd ha hp
  refine ⟨by rw [hrun], ?_, ?_, ?_, ?_⟩
  · rw [hrun, pushCalls_append, pushCalls_pushedTrace, pushCalls_renderReport,
      List.append_nil]
  · rw [hrun, printed_append, printed_pushedTrace]
  · rcases hs with h | h | h | h <;> subst h
    · rw [printed_renderReport_quiet]; rfl
    · rw [printed_renderReport_short]; rfl
    · rw [printed_renderReport_oneline]; rfl
    · rw [printed_renderReport_full]; rfl
  · have h1 : ¬ ("oneline" = "quiet") := by decide
    have h2 : ¬ ("short" = "quiet") := by decide
    simp [renderReport, h1, h2]

/-- Claim C2, amended, at the settings `"never"` and `"oneline"`. -/
theorem summary_settings_accepted_witness :
    ("oneline" = "quiet" ∨ "oneline" = "short" ∨ "oneline" = "oneline" ∨ "oneline" = "full")
      ∧ cleanupSettingFor "never" = .ok .Never
      ∧ steadyEnv.assetFunc golangApp.assetFunc (namedTrace steadyEnv golangApp [])
        = .ok ⟨["main.go"]⟩
      ∧ steadyEnv.PushApp golangApp.caption (generatedName steadyEnv golangApp [])
        ⟨["main.go"]⟩ .Never (assetTrace steadyEnv golangApp []) = .ok sampleReport
      ∧ (runSampleAppPush "never" "oneline" steadyEnv golangApp []).1 = none :=
  ⟨by decide, rfl, rfl, rfl, (summary_settings_accepted "never" "oneline" steadyEnv golangApp []
    .Never ⟨["main.go"]⟩ sampleReport (by decide) rfl rfl rfl).1⟩

/-- A summary setting that the `switch` does not list, here `"verbose"`, is not
rejected either: the push is made, no error is returned, nothing is printed. -/
theorem unknown_summary_pushes_silently :
    (runSampleAppPush "always" "verbose" steadyEnv golangApp []).1 = none
      ∧ pushCalls (runSampleAppPush "always" "verbose" steadyEnv golangApp []).2
        = [("Golang", generatedName steadyEnv golangApp [], ⟨["main.go"]⟩, .Always)]
      ∧ printed (runSampleAppPush "always" "verbose" steadyEnv golangApp []).2 = [] := by
  have hrun := @runSampleAppPush_of_success "always" "verbose" steadyEnv golangApp []
    .Always ⟨["main.go"]⟩ sampleReport rfl rfl rfl
  have hr : renderReport "verbose" "Golang" sampleReport = [] := by
    have h1 : ¬ ("verbose" = "quiet") := by decide
    have h2 : ¬ ("verbose" = "short") := by decide
    have h3 : ¬ ("verbose" = "oneline") := by decide
    have h4 : ¬ ("verbose" = "full") := by decide
    simp [renderReport, h1, h2, h3, h4]
  refine ⟨by rw [hrun], ?_, ?_⟩
  · rw [hrun, pushCalls_append, pushCalls_pushedTrace, pushCalls_renderReport]
    rfl
  · rw [hrun, printed_append, printed_pushedTrace]
    show printed [] ++ printed (renderReport "verbose" "Golang" sampleReport) = []
    rw [hr]
    rfl

/-- Below `16777216.999999999 s` (about 194 days) `humanReadableDuration` is the
reference humanizer. -/
theorem humanReadableDuration_eq_humanizeSpec (d : Int) (h : d < 16777216999999999) :
    humanReadableDuration d = humanizeSpec d := by
  unfold humanReadableDuration humanizeSpec
  by_cases hlt : d < Second
  · have hlt' : d < 1000000000 := hlt
    rw [if_pos hlt, if_pos hlt']
  · have hge : Second ≤ d := not_lt.mp hlt
    have hge' : (1000000000 : Int) ≤ d := hge
    have hlt' : ¬ d < 1000000000 := by omega
    rw [if_neg hlt, if_neg hlt']
    simp only
    rw [truncSeconds_eq d hge h, splitSeconds_eq _ (by omega)]
    exact stringsJoin_durationParts _ _ _ (by omega) (by omega) (by omega)

/-- The five durations that the specification lists: 500 ms, 45 s, 90 s, 3661 s
and 3600 s. -/
theorem humanReadableDuration_examples :
    humanReadableDuration 500000000 = "less than a second"
      ∧ humanReadableDuration 45000000000 = "45 sec"
      ∧ humanReadableDuration 90000000000 = "1 min 30 sec"
      ∧ humanReadableDuration 3661000000000 = "1 h 1 min 1 sec"
      ∧ humanReadableDuration 3600000000000 = "1 h" := by
  refine ⟨?_, ?_, ?_, ?_, ?_⟩ <;>
    rw [humanReadableDuration_eq_humanizeSpec _ (by decide)] <;> decide

/-- Claim C3 fails at the duration `16777216999999999` ns
(`16777216.999999999 s`): the reference drops the remainder and gives 16
seconds in the last component, while `humanReadableDuration` gives 17, because
the `float64` sum in `Duration.Seconds` is rounded up to `16777217.0` before
`int(...)` drops the fraction. -/
theorem humanReadableDuration_rounds_up_a_second :
    humanReadableDuration 16777216999999999 = "4660 h 20 min 17 sec"
      ∧ humanizeSpec 16777216999999999 = "4660 h 20 min 16 sec"
      ∧ humanReadableDuration 16777216999999999 ≠ humanizeSpec 16777216999999999 := by
  have h1 : humanReadableDuration 16777216999999999 = "4660 h 20 min 17 sec" := by
    unfold humanReadableDuration
    rw [if_neg (by decide)]
    simp only
    rw [truncSeconds_rounds_up]
    decide
  have h2 : humanizeSpec 16777216999999999 = "4660 h 20 min 16 sec" := by decide
  refine ⟨h1, h2, ?_⟩
  rw [h1, h2]
  decide

/-- Claim C4. Looking up the `command` of a descriptor of the registry returns
that descriptor; a name that is the `command` of no descriptor returns `none`;
the aliases `"go"`, `"static"` and `"node"` return `none`. -/
theorem lookUpSampleAppByName_registry :
    (∀ d ∈ sampleApps, lookUpSampleAppByName d.command = some d)
      ∧ (∀ name, (∀ d ∈ sampleApps, d.command ≠ name) → lookUpSampleAppByName name = none)
      ∧ lookUpSampleAppByName "go" = none
      ∧ lookUpSampleAppByName "static" = none
      ∧ lookUpSampleAppByName "node" = none := by
  refine ⟨by decide, fun name h => lookUpIn_eq_none sampleApps name h, by decide, by decide,
    by decide⟩

/-- Claim C5. The loop of the `all` command over any registry `apps` and any
push function: when the entries `pre` before an entry `k` all succeed and `k`
fails with `err`, the loop returns `err` and the state that `k` left, and the
entries pushed are, in order, `pre` and then `k`, none of `post`; when all
entries succeed, the loop returns no error and the entries pushed are `apps`
in order; and one of the two is always the case. -/
theorem all_command_stops_at_first_failure {σ : Type}
    (push : sampleApp → σ → Option GoError × σ) (apps : List sampleApp) (s : σ) :
    (∀ pre k post s' s'' err, apps = pre ++ k :: post → AllSucceed push pre s s' →
        push k s' = (some err, s'') →
        runAll push apps s = (some err, s'')
          ∧ runAll (counted push) apps (s, []) = (some err, (s'', pre ++ [k])))
      ∧ (∀ s', AllSucceed push apps s s' →
        runAll push apps s = (none, s')
          ∧ runAll (counted push) apps (s, []) = (none, (s', apps)))
      ∧ ((∃ s', AllSucceed push apps s s')
        ∨ (∃ pre k post s' s'' err, apps = pre ++ k :: post ∧ AllSucceed push pre s s'
            ∧ push k s' = (some err, s''))) := by
  refine ⟨?_, ?_, runAll_outcome push apps s⟩
  · intro pre k post s' s'' err happs hpre hk
    subst happs
    constructor
    · rw [runAll_append_of_allSucceed push hpre]
      simp only [runAll, hk]
    · rw [runAll_counted_append_of_allSucceed push hpre]
      simp only [runAll, counted, hk, List.nil_append]
  · intro s' hall
    constructor
    · have := runAll_append_of_allSucceed push hall []
      simpa [runAll] using this
    · have := runAll_counted_append_of_allSucceed push hall [] []
      simpa [runAll] using this

/-- Claim C5 on three entries of which the second fails: the loop over
`runSampleAppPush` returns the error of the second entry, and the entries
pushed are the first and the second. -/
theorem all_command_stops_at_first_failure_witness :
    (runAll (runSampleAppPush "always" "quiet" pythonFailsEnv)
        [golangApp, pythonApp, phpApp] []).1 = some ⟨"staging failed"⟩
      ∧ (runAll (counted (runSampleAppPush "always" "quiet" pythonFailsEnv))
        [golangApp, pythonApp, phpApp] ([], [])).2.2 = [golangApp, pythonApp] :=
  have h := (all_command_stops_at_first_failure
    (runSampleAppPush "always" "quiet" pythonFailsEnv) [golangApp, pythonApp, phpApp] []).1
    [golangApp] pythonApp [phpApp] _ _ ⟨"staging failed"⟩ rfl
    (AllSucceed.cons rfl (AllSucceed.nil _)) rfl
  ⟨congrArg Prod.fst h.1, congrArg (fun r => r.2.2) h.2⟩

/-- Claim C6. With a valid delete setting: when the asset function fails,
`runSampleAppPush` returns that error, the push engine is not called and
nothing is printed; when the asset function succeeds and the push engine
fails, `runSampleAppPush` returns the error of the engine and nothing is
printed. Whatever the settings, something is printed only when
`runSampleAppPush` returns no error. -/
theorem failures_propagate_without_report (deleteSetting summarySetting : String)
    (env : Collaborators) (app : sampleApp) (t : Trace) :
    (∀ cleanupSetting err, cleanupSettingFor deleteSetting = .ok cleanupSetting →
        env.assetFunc app.assetFunc (namedTrace env app t) = .error err →
        (runSampleAppPush deleteSetting summarySetting env app t).1 = some err
          ∧ pushCalls (runSampleAppPush deleteSetting summarySetting env app t).2 = pushCalls t
          ∧ printed (runSampleAppPush deleteSetting summarySetting env app t).2 = printed t)
      ∧ (∀ cleanupSetting directory err, cleanupSettingFor deleteSetting = .ok cleanupSetting →
        env.assetFunc app.assetFunc (namedTrace env app t) = .ok directory →
        env.PushApp app.caption (generatedName env app t) directory cleanupSetting
          (assetTrace env app t) = .error err →
        (runSampleAppPush deleteSetting summarySetting env app t).1 = some err
          ∧ printed (runSampleAppPush deleteSetting summarySetting env app t).2 = printed t)
      ∧ (printed (runSampleAppPush deleteSetting summarySetting env app t).2 ≠ printed t →
        (runSampleAppPush deleteSetting summarySetting env app t).1 = none) := by
  refine ⟨?_, ?_, ?_⟩
  · intro c err hd ha
    rw [runSampleAppPush_of_asset_error summarySetting hd ha]
    exact ⟨rfl, pushCalls_assetTrace env app t, printed_assetTrace env app t⟩
  · intro c directory err hd ha hp
    rw [runSampleAppPush_of_push_error summarySetting hd ha hp]
    exact ⟨rfl, printed_pushedTrace env app t directory c⟩
  · intro hne
    cases hd : cleanupSettingFor deleteSetting with
    | error err =>
      rw [runSampleAppPush_of_invalid summarySetting env app t hd] at hne
      exact absurd rfl hne
    | ok c =>
      cases ha : env.assetFunc app.assetFunc (namedTrace env app t) with
      | error err =>
        rw [runSampleAppPush_of_asset_error summarySetting hd ha] at hne
        exact absurd (printed_assetTrace env app t) hne
      | ok directory =>
        cases hp : env.PushApp app.caption (generatedName env app t) directory c
            (assetTrace env app t) with
        | error err =>
          rw [runSampleAppPush_of_push_error summarySetting hd ha hp] at hne
          exact absurd (printed_pushedTrace env app t directory c) hne
        | ok report =>
          rw [runSampleAppPush_of_success summarySetting hd ha hp]

/-- Claim C6 on a failing asset function and on a failing push engine. -/
theorem failures_propagate_without_report_witness :
    ((runSampleAppPush "always" "full" noAssetsEnv golangApp []).1 = some ⟨"asset unavailable"⟩
        ∧ pushCalls (runSampleAppPush "always" "full" noAssetsEnv golangApp []).2 = pushCalls []
        ∧ printed (runSampleAppPush "always" "full" noAssetsEnv golangApp []).2 = printed [])
      ∧ ((runSampleAppPush "always" "full" pushFailsEnv golangApp []).1 = some ⟨"push failed"⟩
        ∧ printed (runSampleAppPush "always" "full" pushFailsEnv golangApp []).2 = printed []) :=
  ⟨(failures_propagate_without_report "always" "full" noAssetsEnv golangApp []).1
      .Always ⟨"asset unavailable"⟩ rfl rfl,
    (failures_propagate_without_report "always" "full" pushFailsEnv golangApp []).2.1
      .Always ⟨["main.go"]⟩ ⟨"push failed"⟩ rfl rfl rfl⟩

/-- Claim C7. For every descriptor of the registry the generated application
name is the `appNamePrefix` of the descriptor followed by a suffix of exactly
32 characters, so it starts with the prefix and its length is the length of
the prefix plus 32; it is the name that `runSampleAppPush` generates whenever
the delete setting is valid. For the seven descriptors the lengths are 49, 49,
46, 53, 48, 49 and 55. -/
theorem generated_name_has_prefix_and_suffix (env : Collaborators) (t : Trace) :
    (∀ app ∈ sampleApps,
        (∃ suffix : String, suffix.length = 32
          ∧ generatedName env app t = app.appNamePrefix ++ suffix)
        ∧ (generatedName env app t).length = app.appNamePrefix.length + 32
        ∧ app.appNamePrefix.data <+: (generatedName env app t).data
        ∧ (∀ deleteSetting summarySetting cleanupSetting,
            cleanupSettingFor deleteSetting = .ok cleanupSetting →
            Event.randomString app.appNamePrefix 32 (generatedName env app t)
              ∈ (runSampleAppPush deleteSetting summarySetting env app t).2))
      ∧ sampleApps.map (fun app => (generatedName env app t).length)
        = [49, 49, 46, 53, 48, 49, 55] := by
  have hlen : ∀ app : sampleApp,
      (generatedName env app t).length = app.appNamePrefix.length + 32 := by
    intro app
    simp [generatedName, RandomStringWithPrefix, RandomString_length]
  constructor
  · intro app _
    refine ⟨⟨RandomString (env.randInt t) 32, RandomString_length _ _, rfl⟩, hlen app, ?_, ?_⟩
    · simp [generatedName, RandomStringWithPrefix]
    · intro ds ss c hd
      exact namedTrace_subset_run ds ss env app t hd
  · simp only [sampleApps, List.map_cons, List.map_nil, hlen]
    decide

/-- Claim C8. For each delete setting among `"always"`, `"never"` and
`"on-success"` and every descriptor whose asset function succeeds,
`runSampleAppPush` calls the push engine exactly once, with the caption of the
descriptor, the generated application name, the directory that the asset
function returned and the cleanup setting, which is `Always`, `Never`,
`OnSuccess` respectively; the three cleanup settings are pairwise distinct. -/
theorem push_engine_called_once (deleteSetting summarySetting : String)
    (env : Collaborators) (app : sampleApp) (t : Trace) (directory : Directory)
    (hds : deleteSetting = "always" ∨ deleteSetting = "never" ∨ deleteSetting = "on-success")
    (ha : env.assetFunc app.assetFunc (namedTrace env app t) = .ok directory) :
    (∃ cleanupSetting : AppCleanupSetting,
        cleanupSettingFor deleteSetting = .ok cleanupSetting
        ∧ (deleteSetting = "always" → cleanupSetting = .Always)
        ∧ (deleteSetting = "never" → cleanupSetting = .Never)
        ∧ (deleteSetting = "on-success" → cleanupSetting = .OnSuccess)
        ∧ pushCalls (runSampleAppPush deleteSetting summarySetting env app t).2
          = pushCalls t ++ [(app.caption, generatedName env app t, directory, cleanupSetting)])
      ∧ AppCleanupSetting.Always ≠ AppCleanupSetting.Never
      ∧ AppCleanupSetting.Always ≠ AppCleanupSetting.OnSuccess
      ∧ AppCleanupSetting.Never ≠ AppCleanupSetting.OnSuccess := by
  have key : ∀ c, cleanupSettingFor deleteSetting = .ok c →
      pushCalls (runSampleAppPush deleteSetting summarySetting env app t).2
        = pushCalls t ++ [(app.caption, generatedName env app t, directory, c)] := by
    intro c hd
    cases hp : env.PushApp app.caption (generatedName env app t) directory c
        (assetTrace env app t) with
    | error err =>
      rw [runSampleAppPush_of_push_error summarySetting hd ha hp, pushCalls_pushedTrace]
    | ok report =>
      rw [runSampleAppPush_of_success summarySetting hd ha hp, pushCalls_append,
        pushCalls_pushedTrace, pushCalls_renderReport, List.append_nil]
  refine ⟨?_, by decide, by decide, by decide⟩
  rcases hds with h | h | h <;> subst h
  · exact ⟨.Always, rfl, fun _ => rfl, fun h => absurd h (by decide),
      fun h => absurd h (by decide), key _ rfl⟩
  · exact ⟨.Never, rfl, fun h => absurd h (by decide), fun _ => rfl,
      fun h => absurd h (by decide), key _ rfl⟩
  · exact ⟨.OnSuccess, rfl, fun h => absurd h (by decide), fun h => absurd h (by decide),
      fun _ => rfl, key _ rfl⟩

/-- Claim C8 at the delete setting `"on-success"`, with a push engine that
fails: the engine has been called once, with the cleanup setting `OnSuccess`. -/
theorem push_engine_called_once_witness :
    ("on-success" = "always" ∨ "on-success" = "never" ∨ "on-success" = "on-success")
      ∧ pushFailsEnv.assetFunc golangApp.assetFunc (namedTrace pushFailsEnv golangApp [])
        = .ok ⟨["main.go"]⟩
      ∧ ∃ cleanupSetting : AppCleanupSetting,
        cleanupSettingFor "on-success" = .ok cleanupSetting
        ∧ ("on-success" = "always" → cleanupSetting = .Always)
        ∧ ("on-success" = "never" → cleanupSetting = .Never)
        ∧ ("on-success" = "on-success" → cleanupSetting = .OnSuccess)
        ∧ pushCalls (runSampleAppPush "on-success" "short" pushFailsEnv golangApp []).2
          = pushCalls [] ++ [(golangApp.caption, generatedName pushFailsEnv golangApp [],
              ⟨["main.go"]⟩, cleanupSetting)] :=
  ⟨by decide, rfl, (push_engine_called_once "on-success" "short" pushFailsEnv golangApp []
    ⟨["main.go"]⟩ (by decide) rfl).1⟩

/-- Claim C9. After a successful push, what `runSampleAppPush` prints is the
rendering of the caption and the report at the summary setting, and of
nothing else: with `"quiet"` nothing; with `"short"` one `Printf` of one line,
with the caption and the humanized total elapsed time; with `"full"` nine
`Printf` calls of one line each, in this order: the total elapsed time, the
durations of initialisation, creating, uploading, staging and starting, each
humanized, the buildpack name, the stack name, and a blank line. -/
theorem report_follows_summary_setting (deleteSetting summarySetting : String)
    (env : Collaborators) (app : sampleApp) (t : Trace) (cleanupSetting : AppCleanupSetting)
    (directory : Directory) (report : PushReport)
    (hd : cleanupSettingFor deleteSetting = .ok cleanupSetting)
    (ha : env.assetFunc app.assetFunc (namedTrace env app t) = .ok directory)
    (hp : env.PushApp app.caption (generatedName env app t) directory cleanupSetting
      (assetTrace env app t) = .ok report) :
    printed (runSampleAppPush deleteSetting summarySetting env app t).2
        = printed t ++ printed (renderReport summarySetting app.caption report)
      ∧ printed (renderReport "quiet" app.caption report) = []
      ∧ printed (renderReport "short" app.caption report)
        = [("Successfully pushed *%s* sample app in CadetBlue\x7b%s\x7d.\n",
            [app.caption, humanReadableDuration report.ElapsedTime])]
      ∧ lineCount "Successfully pushed *%s* sample app in CadetBlue\x7b%s\x7d.\n" = 1
      ∧ printed (renderReport "full" app.caption report)
        = [("Successfully pushed *%s* sample app in CadetBlue\x7b%s\x7d:\n",
            [app.caption, humanReadableDuration report.ElapsedTime]),
           ("  _initialisation_: SteelBlue\x7b%s\x7d\n",
            [humanReadableDuration report.InitTime]),
           ("        _creating_: SteelBlue\x7b%s\x7d\n",
            [humanReadableDuration report.CreatingTime]),
           ("       _uploading_: SteelBlue\x7b%s\x7d\n",
            [humanReadableDuration report.UploadingTime]),
           ("         _staging_: SteelBlue\x7b%s\x7d\n",
            [humanReadableDuration report.StagingTime]),
           ("        _starting_: SteelBlue\x7b%s\x7d\n",
            [humanReadableDuration report.StartingTime]),
           ("       _buildpack_: BurlyWood\x7b%s\x7d\n", [report.BuildpackName]),
           ("           _stack_: BurlyWood\x7b%s\x7d\n", [report.BuildpackStack]),
           ("\n", [])]
      ∧ (printed (renderReport "full" app.caption report)).map (fun p => lineCount p.1)
        = [1, 1, 1, 1, 1, 1, 1, 1, 1] := by
  refine ⟨?_, printed_renderReport_quiet _ _, printed_renderReport_short _ _, by decide,
    printed_renderReport_full _ _, ?_⟩
  · rw [runSampleAppPush_of_success summarySetting hd ha hp, printed_append,
      printed_pushedTrace]
  · rw [printed_renderReport_full]
    simp only [List.map_cons, List.map_nil]
    decide

/-- Claim C9 on a successful push of the first registry entry with the summary
setting `"full"`. -/
theorem report_follows_summary_setting_witness :
    cleanupSettingFor "always" = .ok .Always
      ∧ steadyEnv.assetFunc golangApp.assetFunc (namedTrace steadyEnv golangApp [])
        = .ok ⟨["main.go"]⟩
      ∧ steadyEnv.PushApp golangApp.caption (generatedName steadyEnv golangApp [])
        ⟨["main.go"]⟩ .Always (assetTrace steadyEnv golangApp []) = .ok sampleReport
      ∧ printed (runSampleAppPush "always" "full" steadyEnv golangApp []).2
        = printed [] ++ printed (renderReport "full" golangApp.caption sampleReport) :=
  ⟨rfl, rfl, rfl, (report_follows_summary_setting "always" "full" steadyEnv golangApp []
    .Always ⟨["main.go"]⟩ sampleReport rfl rfl rfl).1⟩

/-- Claim C10. For every duration, zero and negative ones included,
`humanReadableDuration` is not the empty string. From one second on, at least
one of the hours, minutes and seconds that it holds after the two nested
divisions by 60 is positive, so the list of parts is not empty, and the
minutes and the seconds are below 60. -/
theorem humanReadableDuration_ne_empty (d : Int) :
    humanReadableDuration d ≠ ""
      ∧ (Second ≤ d →
        ((splitSeconds (truncToInt (Duration.Seconds d))).1 > 0
            ∨ (splitSeconds (truncToInt (Duration.Seconds d))).2.1 > 0
            ∨ (splitSeconds (truncToInt (Duration.Seconds d))).2.2 > 0)
          ∧ durationParts (splitSeconds (truncToInt (Duration.Seconds d))) ≠ []
          ∧ (splitSeconds (truncToInt (Duration.Seconds d))).2.1 < 60
          ∧ (splitSeconds (truncToInt (Duration.Seconds d))).2.2 < 60) := by
  constructor
  · unfold humanReadableDuration
    by_cases hlt : d < Second
    · rw [if_pos hlt]; decide
    · rw [if_neg hlt]
      have hs := one_le_truncSeconds d (not_lt.mp hlt)
      have hc := splitSeconds_components _ hs
      exact stringsJoin_durationParts_ne_empty _ hc.1
  · intro hge
    have hs := one_le_truncSeconds d hge
    have hc := splitSeconds_components _ hs
    exact ⟨hc.1, durationParts_ne_nil _ hc.1, hc.2.2.2.1, hc.2.2.2.2.2⟩

end Gonut
